import Mathlib

/-! tcpkali: address resolution, storage and rendering (`src/tcpkali_dns.c`).

A shallow embedding of the four functions of `tcpkali_dns.c`:
`address_add`, `resolve_remote_addresses`, `fprint_addresses` and
`format_sockaddr`, followed by theorems about them.

Conventions of the embedding.

* A C string is the list of its characters (the terminating NUL is implicit).
* A computation that may end the process returns an `Outcome`: a normal
  return, `exit(3)`/`errx(3)` with a status and the text put on standard
  error, or a failed `assert(3)`. Assertions are compiled in (no `NDEBUG`).
* Memory is unbounded: `realloc(3)` always succeeds, except in
  `address_add_mem`, which leaves its result open.
* The C library and the system resolver are collaborators. The resolver is a
  parameter (`libc.getaddrinfo`); `inet_ntop`, `snprintf`, `ntohs` and
  `strchr` are modelled by the definitions below.
-/

namespace Tcpkali

/-! ## Process outcomes and streams -/

/-- How a C function call ends: it returns a value, the process exits with a
status after writing `err` to standard error, or an assertion fails. -/
inductive Outcome (α : Type) where
  | ret (val : α)
  | exit (status : Nat) (err : List Char)
  | assert_fail (expr : List Char)
  deriving DecidableEq, Repr

/-- A stdio stream. -/
inductive FILE where
  | stdout
  | stderr
  | file (fd : Nat)
  deriving DecidableEq, Repr

/-- One `fprintf(fp, "%s", text)` call. -/
abbrev Write := FILE × List Char

/-- The text a stream has received from a sequence of writes. -/
def written (fp : FILE) : List Write → List Char
  | [] => []
  | (f, text) :: rest => if f = fp then text ++ written fp rest else written fp rest

/-- The `sysexits.h` status for a command line usage error. -/
def EX_USAGE : Nat := 64

/-- The `sysexits.h` status for an unknown host. -/
def EX_NOHOST : Nat := 68

/-! ## Socket addresses -/

/-- One octet. -/
abbrev uint8_t := Fin 256

/-- An `in_port_t` field as it lies in memory: two octets, which for a socket
address are in network byte order (`hi` first). -/
structure in_port_t where
  hi : uint8_t
  lo : uint8_t
  deriving DecidableEq, Repr

/-- The four octets of `struct in_addr`, in memory (network) order. -/
structure in_addr where
  b0 : uint8_t
  b1 : uint8_t
  b2 : uint8_t
  b3 : uint8_t
  deriving DecidableEq, Repr

/-- The sixteen octets of `struct in6_addr`. -/
abbrev in6_addr := { l : List uint8_t // l.length = 16 }

/-- The fields of `struct sockaddr_in` after the family tag. -/
structure sockaddr_in where
  sin_port : in_port_t
  sin_addr : in_addr
  deriving DecidableEq, Repr

/-- The fields of `struct sockaddr_in6` after the family tag. -/
structure sockaddr_in6 where
  sin6_port : in_port_t
  sin6_flowinfo : Nat
  sin6_addr : in6_addr
  sin6_scope_id : Nat
  deriving DecidableEq

/-- The family tag `sa_family`. -/
inductive sa_family_t where
  | AF_INET
  | AF_INET6
  | AF_other (n : Nat)
  deriving DecidableEq, Repr

/-- A socket address behind a `struct sockaddr *`: the family tag selects
which variant's bytes are there. `other n` is a record of some family that is
neither `AF_INET` nor `AF_INET6`. -/
inductive sockaddr where
  | inet (sin : sockaddr_in)
  | inet6 (sin6 : sockaddr_in6)
  | other (n : Nat)
  deriving DecidableEq

/-- The `sa_family` field of a record. -/
def sockaddr.sa_family : sockaddr → sa_family_t
  | .inet _ => .AF_INET
  | .inet6 _ => .AF_INET6
  | .other n => .AF_other n

/-- An IPv4 or IPv6 record. -/
def sockaddr.is_ip (sa : sockaddr) : Bool :=
  sa.sa_family = .AF_INET || sa.sa_family = .AF_INET6

/-- The `struct addresses` of `tcpkali.h`: the block `addrs` points to (of
`struct sockaddr_storage` slots; `NULL` is the empty block) and the count. -/
structure addresses where
  addrs : List sockaddr
  n_addrs : Nat
  deriving DecidableEq

/-- What a slot holds before anything was stored in it. -/
def fresh_slot : sockaddr := .other 0

/-- Model of `realloc(block, n * sizeof(slot))`: a block of `n` slots whose
first `min n (old size)` slots are those of `block`. -/
def realloc (block : List sockaddr) (n : Nat) : List sockaddr :=
  block.take n ++ List.replicate (n - block.length) fresh_slot

/-- Embedding of `address_add` (lines 50-70). -/
def address_add (aseq : addresses) (sa : sockaddr) : Outcome addresses :=
  let addrs := realloc aseq.addrs (aseq.n_addrs + 1)
  match sa.sa_family with
  | .AF_INET =>
    .ret { addrs := addrs.set aseq.n_addrs sa, n_addrs := aseq.n_addrs + 1 }
  | .AF_INET6 =>
    .ret { addrs := addrs.set aseq.n_addrs sa, n_addrs := aseq.n_addrs + 1 }
  | .AF_other _ => .assert_fail "!\"Not IPv4 and not IPv6\"".toList

/-! ## Parsing and resolving -/

/-- Model of `strchr(s, c)`: the offset of the first `c` in `s`, if any. -/
def strchr : List Char → Char → Option Nat
  | [], _ => none
  | x :: xs, c => if x = c then some 0 else (strchr xs c).map (· + 1)

/-- The endpoint parser of `resolve_remote_addresses` (lines 86-97): `host`
up to the first `:`, `service_string` after it and cut at its first `/`,
`path` after that `/`. `none` when there is no `:`. -/
def parse_hostport (hostport : List Char) :
    Option (List Char × List Char × Option (List Char)) :=
  match strchr hostport ':' with
  | none => none
  | some i =>
    let host := hostport.take i
    let service_string := hostport.drop (i + 1)
    match strchr service_string '/' with
    | some j => some (host, service_string.take j, some (service_string.drop (j + 1)))
    | none => some (host, service_string, none)

/-- The collaborators of the resolution pass. `getaddrinfo host service`
stands for the call with the fixed hints of lines 99-104 and gives the error
code (0 on success) and the result list; `progname` is what `errx` prints
first. -/
structure libc where
  progname : List Char
  getaddrinfo : List Char → List Char → Int × List sockaddr
  gai_strerror : Int → List Char

/-- Model of `errx(status, "%s", msg)`. -/
def errx {α : Type} (env : libc) (status : Nat) (msg : List Char) : Outcome α :=
  .exit status (env.progname ++ ": ".toList ++ msg ++ "\n".toList)

/-- The loop of lines 113-115: append every record of the result list. -/
def address_add_all (aseq : addresses) : List sockaddr → Outcome addresses
  | [] => .ret aseq
  | sa :: rest =>
    match address_add aseq sa with
    | .ret aseq1 => address_add_all aseq1 rest
    | .exit status err => .exit status err
    | .assert_fail expr => .assert_fail expr

/-- A run of the resolution pass: the `getaddrinfo` calls made, in order, and
how the pass ended. -/
structure Resolution where
  calls : List (List Char × List Char)
  result : Outcome addresses
  deriving DecidableEq

/-- The loop of `resolve_remote_addresses` (lines 85-119) over the specs
still to do. -/
def resolve_loop (env : libc) :
    List (List Char) → addresses → List (List Char × List Char) → Resolution
  | [], addresses, calls => ⟨calls, .ret addresses⟩
  | hostport :: rest, addresses, calls =>
    match parse_hostport hostport with
    | none =>
      ⟨calls, .exit EX_USAGE "Expected :port specification. See --help.\n".toList⟩
    | some (host, service_string, _) =>
      let r := env.getaddrinfo host service_string
      let calls1 := calls ++ [(host, service_string)]
      if r.1 ≠ 0 then
        ⟨calls1, errx env EX_NOHOST
          ("Resolving ".toList ++ host ++ ":".toList ++ service_string ++ ": ".toList
            ++ env.gai_strerror r.1)⟩
      else
        match address_add_all addresses r.2 with
        | .ret addresses1 => resolve_loop env rest addresses1 calls1
        | .exit status err => ⟨calls1, .exit status err⟩
        | .assert_fail expr => ⟨calls1, .assert_fail expr⟩

/-- Embedding of `resolve_remote_addresses` (lines 79-122); `hostports` is
the array of `nhostports` strings. -/
def resolve_remote_addresses (env : libc) (hostports : List (List Char)) : Resolution :=
  resolve_loop env hostports { addrs := [], n_addrs := 0 } []

/-- The `(host, service)` pair the pass hands to the resolver for a spec. -/
def query (hostport : List Char) : Option (List Char × List Char) :=
  (parse_hostport hostport).map fun t => (t.1, t.2.1)

/-- The resolver's answer for a spec: error code and records (`(0, [])` for
a spec the pass never asks about, one without `:`). -/
def lookup (env : libc) (hostport : List Char) : Int × List sockaddr :=
  match query hostport with
  | some q => env.getaddrinfo q.1 q.2
  | none => (0, [])

/-- What a path adds to the end of a spec: `/` and the path, or nothing. -/
def path_tail : Option (List Char) → List Char
  | some p => '/' :: p
  | none => []

/-- The block and count describe one collection: the block has exactly
`n_addrs` slots. -/
def addresses.wf (a : addresses) : Prop := a.addrs.length = a.n_addrs

instance (a : addresses) : Decidable a.wf := by unfold addresses.wf; infer_instance

/-! ## Rendering -/

/-- The size of a buffer for the longest IPv6 literal (`netinet/in.h`). -/
def INET6_ADDRSTRLEN : Nat := 46

/-- Digits of `n` in `base` (2 to 16), most significant first, lower case:
what `printf` puts for `%u` (base 10) and `%x` (base 16). `fuel` bounds the
number of digits after the first. -/
def utoa_loop (base : Nat) : Nat → Nat → List Char
  | 0, n => [Nat.digitChar n]
  | fuel + 1, n =>
    if n < base then [Nat.digitChar n]
    else utoa_loop base fuel (n / base) ++ [Nat.digitChar (n % base)]

/-- Conversion of an unsigned number, as `%u` and `%x` do it. -/
def utoa (base n : Nat) : List Char := utoa_loop base n n

/-- Conversion of an `int`, as `%d` does it. -/
def fmt_d (v : Int) : List Char :=
  if v < 0 then '-' :: utoa 10 v.natAbs else utoa 10 v.natAbs

/-- The value the host reads from an `in_port_t` field in memory. -/
def in_port_t.load (little_endian : Bool) (p : in_port_t) : Nat :=
  if little_endian then p.hi.val + 256 * p.lo.val else 256 * p.hi.val + p.lo.val

/-- Model of `ntohs`: swaps the two octets on a little-endian host. -/
def ntohs (little_endian : Bool) (x : Nat) : Nat :=
  if little_endian then x % 256 * 256 + x / 256 % 256 else x

/-- The octets of an IPv4 address, in memory order. -/
def in_addr.octets (a : in_addr) : List uint8_t := [a.b0, a.b1, a.b2, a.b3]

/-- Octet `i` of a block, as a number. -/
def octet (src : List uint8_t) (i : Nat) : Nat := (src.getD i 0).val

/-- The text `inet_ntop` makes of four octets: `"%u.%u.%u.%u"`. -/
def inet_ntop4_text (src : List uint8_t) : List Char :=
  utoa 10 (octet src 0) ++ '.' :: utoa 10 (octet src 1) ++ '.' :: utoa 10 (octet src 2)
    ++ '.' :: utoa 10 (octet src 3)

/-- A run of zero words in an IPv6 address: `struct { int base, len; }`. -/
structure zrun where
  base : Int
  len : Int
  deriving DecidableEq, Repr

/-- The eight 16-bit words of an IPv6 address. -/
def ntop6_words (src : List uint8_t) : List Nat :=
  (List.range 8).map fun i => octet src (2 * i) * 256 + octet src (2 * i + 1)

/-- The better of the best run so far and the run just ended. -/
def ntop6_better (best cur : zrun) : zrun :=
  if best.base = -1 ∨ cur.len > best.len then cur else best

/-- One step of the scan for the longest run of zero words. -/
def ntop6_scan_step (words : List Nat) (st : zrun × zrun) (i : Nat) : zrun × zrun :=
  if words.getD i 0 = 0 then
    if st.2.base = -1 then (st.1, ⟨i, 1⟩) else (st.1, ⟨st.2.base, st.2.len + 1⟩)
  else if st.2.base ≠ -1 then (ntop6_better st.1 st.2, ⟨-1, st.2.len⟩)
  else st

/-- The run of zero words that is written as `::`, with `base = -1` when
there is none of two words or more. -/
def ntop6_best (words : List Nat) : zrun :=
  let st := (List.range 8).foldl (ntop6_scan_step words) (⟨-1, 0⟩, ⟨-1, 0⟩)
  let best := if st.2.base ≠ -1 then ntop6_better st.1 st.2 else st.1
  if best.base ≠ -1 ∧ best.len < 2 then ⟨-1, best.len⟩ else best

/-- The address is written with an IPv4 tail (`::a.b.c.d`, `::ffff:a.b.c.d`). -/
def ntop6_encapsulated (words : List Nat) (best : zrun) : Bool :=
  best.base = 0 ∧ (best.len = 6 ∨ (best.len = 5 ∧ words.getD 5 0 = 0xffff))

/-- The formatting loop of `inet_ntop` for IPv6, from word `i` on, with `k`
words left. -/
def ntop6_from (src : List uint8_t) (words : List Nat) (best : zrun) : Nat → Nat → List Char
  | 0, _ => []
  | k + 1, i =>
    if best.base ≠ -1 ∧ (i : Int) ≥ best.base ∧ (i : Int) < best.base + best.len then
      if (i : Int) = best.base then ':' :: ntop6_from src words best k (i + 1)
      else ntop6_from src words best k (i + 1)
    else
      let colon := if i ≠ 0 then [':'] else []
      if i = 6 ∧ ntop6_encapsulated words best then
        colon ++ inet_ntop4_text (src.drop 12)
      else
        colon ++ utoa 16 (words.getD i 0) ++ ntop6_from src words best k (i + 1)

/-- The text `inet_ntop` makes of sixteen octets: lower-case hexadecimal
words, the longest run of two or more zero words written as `::`. -/
def inet_ntop6_text (src : List uint8_t) : List Char :=
  let words := ntop6_words src
  let best := ntop6_best words
  ntop6_from src words best 8 0
    ++ (if best.base ≠ -1 ∧ best.base + best.len = 8 then [':'] else [])

/-- Model of `inet_ntop(af, src, dst, size)`: the text, or `NULL` when it
does not fit in `size` bytes with its NUL or the family is not an IP one. -/
def inet_ntop (af : sa_family_t) (src : List uint8_t) (size : Nat) : Option (List Char) :=
  match af with
  | .AF_INET =>
    if (inet_ntop4_text src).length < size then some (inet_ntop4_text src) else none
  | .AF_INET6 =>
    if (inet_ntop6_text src).length < size then some (inet_ntop6_text src) else none
  | .AF_other _ => none

/-- Model of `snprintf(buf, size, ...)` where the format expands to `text`:
what `buf` holds afterwards. -/
def snprintf (buf : List Char) (size : Nat) (text : List Char) : List Char :=
  if size = 0 then buf else text.take (size - 1)

/-- What `%s` prints for a string argument (`(null)` for `NULL`). -/
def fmt_s (s : Option (List Char)) : List Char := s.getD "(null)".toList

/-- Embedding of `format_sockaddr` (lines 148-168); `little_endian` is the
byte order of the host. -/
def format_sockaddr (little_endian : Bool) (sa : sockaddr) (buf : List Char) (size : Nat) :
    Outcome (List Char) :=
  let sel : Option (List uint8_t × Nat) :=
    match sa with
    | .inet sin => some (sin.sin_addr.octets, sin.sin_port.load little_endian)
    | .inet6 sin6 => some (sin6.sin6_addr.val, sin6.sin6_port.load little_endian)
    | .other _ => none
  match sel with
  | none => .assert_fail "!\"ipv4 or ipv6 expected\"".toList
  | some (in_addr, nport) =>
    let ip := inet_ntop sa.sa_family in_addr INET6_ADDRSTRLEN
    .ret (snprintf buf size
      ('[' :: fmt_s ip ++ "]:".toList ++ fmt_d (ntohs little_endian nport)))

/-- A run of `fprint_addresses`: the writes made, in order, and how it ended. -/
structure Printed where
  out : List Write
  result : Outcome Unit
  deriving DecidableEq

/-- The loop of `fprint_addresses` (lines 129-142) from index `n` on, with
`k` iterations left. -/
def fprint_addresses_from (little_endian : Bool) (fp : FILE)
    (pfx separator suffix : List Char) (addresses : addresses) : Nat → Nat → Printed
  | 0, _ => ⟨[], .ret ()⟩
  | k + 1, n =>
    let first : Write := (fp, if n = 0 then pfx else separator)
    match format_sockaddr little_endian (addresses.addrs.getD n fresh_slot) []
        (INET6_ADDRSTRLEN + 64) with
    | .ret text =>
      let last : List Write := if n = addresses.n_addrs - 1 then [(fp, suffix)] else []
      let rest := fprint_addresses_from little_endian fp pfx separator suffix addresses k (n + 1)
      ⟨first :: (FILE.stderr, text) :: last ++ rest.out, rest.result⟩
    | .exit status err => ⟨[first], .exit status err⟩
    | .assert_fail expr => ⟨[first], .assert_fail expr⟩

/-- Embedding of `fprint_addresses` (lines 128-143). -/
def fprint_addresses (little_endian : Bool) (fp : FILE) (pfx separator suffix : List Char)
    (addresses : addresses) : Printed :=
  fprint_addresses_from little_endian fp pfx separator suffix addresses addresses.n_addrs 0

/-- The number a string of decimal digits denotes (the reading of what `%d`
and `%u` print). -/
def decimal_value (text : List Char) : Nat :=
  text.foldl (fun acc c => acc * 10 + (c.toNat - '0'.toNat)) 0

/-- A canonical unsigned decimal numeral: digits only, at least one, and no
leading zero except for the numeral `0` itself. -/
def is_decimal (text : List Char) : Prop :=
  text ≠ [] ∧ (∀ c ∈ text, c.isDigit = true) ∧ (text.head? = some '0' → text = ['0'])

/-- The port of an IP record in host order: first octet times 256 plus the
second (0 for a record of another family). -/
def host_port : sockaddr → Nat
  | .inet sin => sin.sin_port.hi.val * 256 + sin.sin_port.lo.val
  | .inet6 sin6 => sin6.sin6_port.hi.val * 256 + sin6.sin6_port.lo.val
  | .other _ => 0

/-- The textual form of the address of an IP record, by family (empty for a
record of another family). -/
def ip_literal : sockaddr → List Char
  | .inet sin => inet_ntop4_text sin.sin_addr.octets
  | .inet6 sin6 => inet_ntop6_text sin6.sin6_addr.val
  | .other _ => []

/-- The rendering `[ip-literal]:port` of a record. -/
def rendering (sa : sockaddr) : List Char :=
  '[' :: ip_literal sa ++ "]:".toList ++ utoa 10 (host_port sa)

/-- Embedding of `address_add` (lines 50-70) with the fate of `realloc` left
open: when `mem_ok` is false `realloc` returns `NULL` and
`assert(aseq->addrs)` (line 54) fails. -/
def address_add_mem (mem_ok : Bool) (aseq : addresses) (sa : sockaddr) : Outcome addresses :=
  let grown : Option (List sockaddr) :=
    if mem_ok then some (realloc aseq.addrs (aseq.n_addrs + 1)) else none
  match grown with
  | none => .assert_fail "aseq->addrs".toList
  | some addrs =>
    match sa.sa_family with
    | .AF_INET =>
      .ret { addrs := addrs.set aseq.n_addrs sa, n_addrs := aseq.n_addrs + 1 }
    | .AF_INET6 =>
      .ret { addrs := addrs.set aseq.n_addrs sa, n_addrs := aseq.n_addrs + 1 }
    | .AF_other _ => .assert_fail "!\"Not IPv4 and not IPv6\"".toList

/-- The writes of one pass over a collection as the events in order: the
prefix on `fp`, the first rendering on the standard error, then for each
further record the separator on `fp` and its rendering on the standard
error, and last the suffix on `fp`. -/
def expected_writes (fp : FILE) (pfx separator suffix : List Char) : List sockaddr → List Write
  | [] => []
  | e :: rest =>
    (fp, pfx) :: (FILE.stderr, rendering e)
      :: rest.flatMap (fun x => [(fp, separator), (FILE.stderr, rendering x)])
      ++ [(fp, suffix)]

/-- The framed text of a collection: prefix, the renderings joined by the
separator, suffix (nothing for the empty collection). -/
def combined_text (pfx separator suffix : List Char) : List sockaddr → List Char
  | [] => []
  | e :: rest =>
    pfx ++ rendering e ++ rest.flatMap (fun x => separator ++ rendering x) ++ suffix

/-! ## Test data -/

/-- The bytes of `::1`. -/
def loopback6 : in6_addr := ⟨List.replicate 15 0 ++ [1], by decide⟩

/-- The record of 93.184.216.34 port 80. -/
def example4 : sockaddr := .inet ⟨⟨0, 80⟩, ⟨93, 184, 216, 34⟩⟩

/-- The record of `::1` port 443 (443 = 1 * 256 + 187). -/
def example6 : sockaddr := .inet6 ⟨⟨1, 187⟩, 0, loopback6, 0⟩

/-- The record of `ffff:ffff:ffff:ffff:ffff:ffff:ffff:ffff` port 65535. -/
def widest6 : sockaddr := .inet6 ⟨⟨255, 255⟩, 0, ⟨List.replicate 16 255, by decide⟩, 0⟩

/-- A stub resolver: `localhost` has the two example records, any other
host is unknown (error -2). -/
def stub : libc where
  progname := "tcpkali".toList
  getaddrinfo := fun host _ =>
    if host = "localhost".toList then (0, [example4, example6]) else (-2, [])
  gai_strerror := fun _ => "Name or service not known".toList

/-! ## Parsing lemmas -/

theorem strchr_eq_none {s : List Char} {c : Char} : strchr s c = none ↔ c ∉ s := by
  induction s with
  | nil => simp [strchr]
  | cons x xs ih =>
    by_cases hx : x = c
    · simp [strchr, hx]
    · simp [strchr, hx, ih, Ne.symm hx]

theorem strchr_eq_some {s : List Char} {c : Char} {i : Nat} (h : strchr s c = some i) :
    c ∉ s.take i ∧ s = s.take i ++ c :: s.drop (i + 1) := by
  induction s generalizing i with
  | nil => simp [strchr] at h
  | cons x xs ih =>
    by_cases hx : x = c
    · simp [strchr, hx] at h
      subst h
      simp [hx]
    · cases hj : strchr xs c with
      | none => simp [strchr, hx, hj] at h
      | some j =>
      simp only [strchr, hx, if_false, hj, Option.map_some', Option.some.injEq] at h
      subst h
      obtain ⟨h1, h2⟩ := ih hj
      refine ⟨?_, ?_⟩
      · simp [List.take_succ_cons, h1, Ne.symm hx]
      · simp only [List.take_succ_cons, List.drop_succ_cons, List.cons_append]
        exact congrArg _ h2

theorem strchr_append {h : List Char} {c : Char} (t : List Char) (hc : c ∉ h) :
    strchr (h ++ c :: t) c = some h.length := by
  induction h with
  | nil => simp [strchr]
  | cons x xs ih =>
    have hx : x ≠ c := fun e => hc (by simp [e])
    have hxs : c ∉ xs := fun e => hc (by simp [e])
    simp [strchr, hx, ih hxs]

theorem parse_hostport_eq_none {hostport : List Char} :
    parse_hostport hostport = none ↔ ':' ∉ hostport := by
  rw [← strchr_eq_none]
  unfold parse_hostport
  cases h : strchr hostport ':' with
  | none => simp
  | some i =>
    simp only
    split <;> simp

theorem parse_hostport_path (h s p : List Char) (hh : ':' ∉ h) (hs : '/' ∉ s) :
    parse_hostport (h ++ ':' :: (s ++ '/' :: p)) = some (h, s, some p) := by
  unfold parse_hostport
  rw [strchr_append _ hh]
  simp [strchr_append _ hs]

theorem parse_hostport_plain (h s : List Char) (hh : ':' ∉ h) (hs : '/' ∉ s) :
    parse_hostport (h ++ ':' :: s) = some (h, s, none) := by
  unfold parse_hostport
  rw [strchr_append _ hh]
  simp [strchr_eq_none.mpr hs]

/-! ## Lemmas on the collection -/

theorem realloc_grow (block : List sockaddr) :
    realloc block (block.length + 1) = block ++ [fresh_slot] := by
  simp [realloc, List.take_of_length_le]

theorem address_add_ip {aseq : addresses} {sa : sockaddr} (hwf : aseq.wf)
    (hip : sa.is_ip = true) :
    address_add aseq sa = .ret ⟨aseq.addrs ++ [sa], aseq.n_addrs + 1⟩ := by
  unfold addresses.wf at hwf
  have hset : (aseq.addrs ++ [fresh_slot]).set aseq.n_addrs sa = aseq.addrs ++ [sa] := by
    rw [← hwf]; simp
  cases sa with
  | inet sin =>
    simp only [address_add, sockaddr.sa_family]
    rw [← hwf, realloc_grow, hwf, hset]
  | inet6 sin6 =>
    simp only [address_add, sockaddr.sa_family]
    rw [← hwf, realloc_grow, hwf, hset]
  | other n => simp [sockaddr.is_ip, sockaddr.sa_family] at hip

theorem address_add_not_ip (aseq : addresses) {sa : sockaddr} (hip : sa.is_ip = false) :
    address_add aseq sa = .assert_fail "!\"Not IPv4 and not IPv6\"".toList := by
  cases sa with
  | inet sin => simp [sockaddr.is_ip, sockaddr.sa_family] at hip
  | inet6 sin6 => simp [sockaddr.is_ip, sockaddr.sa_family] at hip
  | other n => simp [address_add, sockaddr.sa_family]

theorem address_add_all_ip {rs : List sockaddr} (hip : ∀ sa ∈ rs, sa.is_ip = true) :
    ∀ {aseq : addresses}, aseq.wf →
      address_add_all aseq rs = .ret ⟨aseq.addrs ++ rs, aseq.n_addrs + rs.length⟩ := by
  induction rs with
  | nil => intro aseq _; simp [address_add_all]
  | cons sa rest ih =>
    intro aseq hwf
    have h1 := address_add_ip hwf (hip sa (by simp))
    have hwf1 : addresses.wf ⟨aseq.addrs ++ [sa], aseq.n_addrs + 1⟩ := by
      unfold addresses.wf at hwf ⊢; simp [hwf]
    simp only [address_add_all, h1]
    rw [ih (fun x hx => hip x (by simp [hx])) hwf1]
    simp [Nat.add_assoc, Nat.add_comm 1]

theorem address_add_all_not_exit (aseq : addresses) (rs : List sockaddr) (status : Nat)
    (err : List Char) : address_add_all aseq rs ≠ .exit status err := by
  induction rs generalizing aseq with
  | nil => simp [address_add_all]
  | cons sa rest ih =>
    simp only [address_add_all]
    cases h : address_add aseq sa with
    | ret a => simpa using ih a
    | exit st e =>
      unfold address_add at h
      split at h <;> simp at h
    | assert_fail e => simp

/-! ## Lemmas on the resolution pass -/

theorem query_of_parse {hostport host service : List Char} {path : Option (List Char)}
    (h : parse_hostport hostport = some (host, service, path)) :
    query hostport = some (host, service) := by
  simp [query, h]

theorem lookup_of_parse (env : libc) {hostport host service : List Char}
    {path : Option (List Char)} (h : parse_hostport hostport = some (host, service, path)) :
    lookup env hostport = env.getaddrinfo host service := by
  simp [lookup, query_of_parse h]

theorem parse_of_mem {hostport : List Char} (h : ':' ∈ hostport) :
    ∃ host service path, parse_hostport hostport = some (host, service, path) := by
  cases hp : parse_hostport hostport with
  | none => exact absurd h (parse_hostport_eq_none.mp hp)
  | some t => exact ⟨t.1, t.2.1, t.2.2, rfl⟩

/-- One iteration on a spec that parses, resolves and brings IP records only. -/
theorem resolve_loop_step (env : libc) {hostport : List Char} (rest : List (List Char))
    {acc : addresses} (calls : List (List Char × List Char))
    (hc : ':' ∈ hostport) (h0 : (lookup env hostport).1 = 0)
    (hip : ∀ sa ∈ (lookup env hostport).2, sa.is_ip = true) (hwf : acc.wf) :
    resolve_loop env (hostport :: rest) acc calls =
      resolve_loop env rest
        ⟨acc.addrs ++ (lookup env hostport).2, acc.n_addrs + (lookup env hostport).2.length⟩
        (calls ++ (query hostport).toList) := by
  obtain ⟨host, service, path, hp⟩ := parse_of_mem hc
  rw [lookup_of_parse env hp] at h0 hip
  rw [lookup_of_parse env hp, query_of_parse hp]
  simp only [resolve_loop, hp, h0, ne_eq, not_true_eq_false, if_false,
    address_add_all_ip hip hwf, Option.toList]

theorem resolve_loop_ok (env : libc) (specs rest : List (List Char)) :
    ∀ (acc : addresses) (calls : List (List Char × List Char)),
      (∀ s ∈ specs, ':' ∈ s ∧ (lookup env s).1 = 0 ∧ ∀ sa ∈ (lookup env s).2, sa.is_ip = true) →
      acc.wf →
      resolve_loop env (specs ++ rest) acc calls =
        resolve_loop env rest
          ⟨acc.addrs ++ specs.flatMap (fun s => (lookup env s).2),
            acc.n_addrs + (specs.map (fun s => (lookup env s).2.length)).sum⟩
          (calls ++ specs.flatMap (fun s => (query s).toList)) := by
  induction specs with
  | nil => intro acc calls _ _; simp
  | cons s specs ih =>
    intro acc calls h hwf
    obtain ⟨hc, h0, hip⟩ := h s (by simp)
    have hwf1 : addresses.wf
        ⟨acc.addrs ++ (lookup env s).2, acc.n_addrs + (lookup env s).2.length⟩ := by
      unfold addresses.wf at hwf ⊢; simp [hwf]
    rw [List.cons_append, resolve_loop_step env _ calls hc h0 hip hwf,
      ih _ _ (fun x hx => h x (by simp [hx])) hwf1]
    simp [Nat.add_assoc]

/-- A pass that returns a collection found a `:` in every spec and got no
error from the resolver on any. -/
theorem resolve_loop_ret (env : libc) (specs : List (List Char)) :
    ∀ (acc : addresses) (calls : List (List Char × List Char)) (c : addresses),
      (resolve_loop env specs acc calls).result = .ret c →
      ∀ s ∈ specs, ':' ∈ s ∧ (lookup env s).1 = 0 := by
  induction specs with
  | nil => intro _ _ _ _ s hs; simp at hs
  | cons x specs ih =>
    intro acc calls c h
    cases hp : parse_hostport x with
    | none => simp [resolve_loop, hp] at h
    | some t =>
      obtain ⟨host, service, path⟩ := t
      have hx : ':' ∈ x := by
        by_contra hn
        rw [parse_hostport_eq_none.mpr hn] at hp
        simp at hp
      by_cases h0 : (env.getaddrinfo host service).1 = 0
      · simp only [resolve_loop, hp, h0, ne_eq, not_true_eq_false, if_false] at h
        cases ha : address_add_all acc (env.getaddrinfo host service).2 with
        | ret a =>
          rw [ha] at h
          intro s hs
          rcases List.mem_cons.mp hs with rfl | hs
          · exact ⟨hx, by rw [lookup_of_parse env hp]; exact h0⟩
          · exact ih _ _ c h s hs
        | exit st e => rw [ha] at h; simp at h
        | assert_fail e => rw [ha] at h; simp at h
      · simp [resolve_loop, hp, h0, errx] at h

theorem resolve_loop_congr (env : libc) {a b : List Char} (hab : query a = query b)
    (pre post : List (List Char)) :
    ∀ (acc : addresses) (calls : List (List Char × List Char)),
      resolve_loop env (pre ++ a :: post) acc calls =
        resolve_loop env (pre ++ b :: post) acc calls := by
  induction pre with
  | nil =>
    intro acc calls
    simp only [List.nil_append]
    cases ha : parse_hostport a with
    | none =>
      have hb : parse_hostport b = none := by
        simpa [query, ha] using hab.symm
      simp [resolve_loop, ha, hb]
    | some t =>
      obtain ⟨host, service, path⟩ := t
      cases hb : parse_hostport b with
      | none => simp [query, ha, hb] at hab
      | some u =>
        obtain ⟨host1, service1, path1⟩ := u
        simp only [query, ha, hb, Option.map_some', Option.some.injEq, Prod.mk.injEq] at hab
        obtain ⟨rfl, rfl⟩ := hab
        simp only [resolve_loop, ha, hb]
  | cons x pre ih =>
    intro acc calls
    simp only [List.cons_append, resolve_loop]
    cases parse_hostport x with
    | none => rfl
    | some t =>
      obtain ⟨host, service, path⟩ := t
      simp only
      split
      · rfl
      · cases address_add_all acc (env.getaddrinfo host service).2 with
        | ret a => exact ih _ _
        | exit st e => rfl
        | assert_fail e => rfl

/-! ## Lemmas on number conversion -/

theorem digitChar_value {d : Nat} (h : d < 10) :
    (Nat.digitChar d).toNat - '0'.toNat = d ∧ (Nat.digitChar d).isDigit = true ∧
      (d ≠ 0 → Nat.digitChar d ≠ '0') := by
  interval_cases d <;> decide

theorem utoa_loop_ne_nil (base fuel n : Nat) : utoa_loop base fuel n ≠ [] := by
  cases fuel with
  | zero => simp [utoa_loop]
  | succ k =>
    simp only [utoa_loop]
    split <;> simp

theorem decimal_value_append (l : List Char) (c : Char) :
    decimal_value (l ++ [c]) = decimal_value l * 10 + (c.toNat - '0'.toNat) := by
  simp [decimal_value, List.foldl_append]

theorem utoa_loop_decimal (fuel : Nat) :
    ∀ n, n ≤ fuel → decimal_value (utoa_loop 10 fuel n) = n ∧
      (∀ c ∈ utoa_loop 10 fuel n, c.isDigit = true) ∧
      (n ≠ 0 → (utoa_loop 10 fuel n).head? ≠ some '0') := by
  induction fuel with
  | zero =>
    intro n hn
    obtain rfl : n = 0 := by omega
    simp [utoa_loop, decimal_value]
    decide
  | succ k ih =>
    intro n hn
    simp only [utoa_loop]
    by_cases hlt : n < 10
    · obtain ⟨h1, h2, h3⟩ := digitChar_value hlt
      simp only [hlt, if_true]
      refine ⟨?_, ?_, ?_⟩
      · simpa [decimal_value] using h1
      · simpa using h2
      · intro h0; simpa using h3 h0
    · obtain ⟨h1, h2, h3⟩ := ih (n / 10) (by omega)
      obtain ⟨d1, d2, _⟩ := digitChar_value (Nat.mod_lt n (by decide : 0 < 10))
      simp only [hlt, if_false]
      refine ⟨?_, ?_, ?_⟩
      · rw [decimal_value_append, h1, d1]; omega
      · intro c hc
        rcases List.mem_append.mp hc with hc | hc
        · exact h2 c hc
        · simp at hc; rw [hc]; exact d2
      · intro _
        have hne := utoa_loop_ne_nil 10 k (n / 10)
        cases hl : utoa_loop 10 k (n / 10) with
        | nil => exact absurd hl hne
        | cons c cs =>
          rw [hl] at h3
          simpa using h3 (by omega)

theorem utoa_zero (base : Nat) : utoa base 0 = ['0'] := by
  simp only [utoa, utoa_loop]
  rfl

/-- Base 10 conversion gives the canonical decimal numeral of the number. -/
theorem utoa_decimal (n : Nat) : is_decimal (utoa 10 n) ∧ decimal_value (utoa 10 n) = n := by
  obtain ⟨h1, h2, h3⟩ := utoa_loop_decimal n n (Nat.le_refl n)
  refine ⟨⟨utoa_loop_ne_nil 10 n n, h2, ?_⟩, h1⟩
  intro hh
  by_cases h0 : n = 0
  · subst h0; exact utoa_zero 10
  · exact absurd hh (h3 h0)

theorem utoa_loop_length (base : Nat) (hb : 2 ≤ base) (fuel : Nat) :
    ∀ n k, n ≤ fuel → 1 ≤ k → n < base ^ k → (utoa_loop base fuel n).length ≤ k := by
  induction fuel with
  | zero => intro n k _ hk _; simpa [utoa_loop] using hk
  | succ f ih =>
    intro n k hn hk hlt
    simp only [utoa_loop]
    by_cases hnb : n < base
    · simpa [hnb] using hk
    · simp only [hnb, if_false, List.length_append, List.length_singleton]
      obtain ⟨j, rfl⟩ : ∃ j, k = j + 1 := ⟨k - 1, by omega⟩
      have hj : 1 ≤ j := by
        by_contra h
        obtain rfl : j = 0 := by omega
        simp at hlt
        exact hnb hlt
      have hdiv : n / base < base ^ j := by
        apply Nat.div_lt_of_lt_mul
        rw [← Nat.pow_succ']
        exact hlt
      have hle : n / base ≤ f := by
        have : n / base < n := Nat.div_lt_self (by omega) (by omega)
        omega
      have := ih (n / base) j hle hj hdiv
      omega

theorem utoa_length {base n k : Nat} (hb : 2 ≤ base) (hk : 1 ≤ k) (h : n < base ^ k) :
    (utoa base n).length ≤ k :=
  utoa_loop_length base hb n n k (Nat.le_refl n) hk h

theorem fmt_d_nat (n : Nat) : fmt_d (n : Int) = utoa 10 n := by
  simp [fmt_d]

theorem ntohs_load (little_endian : Bool) (p : in_port_t) :
    ntohs little_endian (p.load little_endian) = p.hi.val * 256 + p.lo.val := by
  have h1 := p.hi.isLt
  have h2 := p.lo.isLt
  cases little_endian
  · simp only [ntohs, in_port_t.load, Bool.false_eq_true, if_false]; omega
  · simp only [ntohs, in_port_t.load, if_true]; omega

/-! ## Lemmas on address literals -/

theorem octet_lt (src : List uint8_t) (i : Nat) : octet src i < 256 :=
  (src.getD i 0).isLt

theorem utoa_octet_length (src : List uint8_t) (i : Nat) :
    (utoa 10 (octet src i)).length ≤ 3 :=
  utoa_length (by decide) (by decide) (Nat.lt_of_lt_of_le (octet_lt src i) (by decide))

theorem inet_ntop4_text_length (src : List uint8_t) : (inet_ntop4_text src).length ≤ 15 := by
  have h0 := utoa_octet_length src 0
  have h1 := utoa_octet_length src 1
  have h2 := utoa_octet_length src 2
  have h3 := utoa_octet_length src 3
  simp only [inet_ntop4_text, List.length_append, List.length_cons]
  omega

theorem ntop6_words_lt (src : List uint8_t) (i : Nat) : (ntop6_words src).getD i 0 < 65536 := by
  have hlen : (ntop6_words src).length = 8 := by simp [ntop6_words]
  by_cases hi : i < 8
  · have h1 := octet_lt src (2 * i)
    have h2 := octet_lt src (2 * i + 1)
    rw [List.getD_eq_getElem _ _ (by omega)]
    simp only [ntop6_words, List.getElem_map, List.getElem_range]
    omega
  · rw [List.getD_eq_default _ _ (by omega)]
    decide

theorem utoa_word_length (src : List uint8_t) (i : Nat) :
    (utoa 16 ((ntop6_words src).getD i 0)).length ≤ 4 :=
  utoa_length (by decide) (by decide) (Nat.lt_of_lt_of_le (ntop6_words_lt src i) (by decide))

/-- Without an IPv4 tail every word adds at most a colon and four digits. -/
theorem ntop6_from_length_plain (src : List uint8_t) (best : zrun)
    (henc : ntop6_encapsulated (ntop6_words src) best = false) (k : Nat) :
    ∀ i, (ntop6_from src (ntop6_words src) best k i).length ≤ 5 * k := by
  induction k with
  | zero => intro i; simp [ntop6_from]
  | succ k ih =>
    intro i
    have hrec := ih (i + 1)
    have hw := utoa_word_length src i
    simp only [ntop6_from, henc, Bool.false_eq_true, and_false, if_false]
    split
    · split
      · simp only [List.length_cons]; omega
      · omega
    · split
      · simp only [List.length_append, List.length_cons, List.length_nil]; omega
      · simp only [List.length_append, List.length_cons, List.length_nil]; omega

/-- With an IPv4 tail the text is `::` or `::ffff:` and a dotted quad. -/
theorem ntop6_from_length_encapsulated (src : List uint8_t) (best : zrun)
    (henc : ntop6_encapsulated (ntop6_words src) best = true) :
    (ntop6_from src (ntop6_words src) best 8 0).length ≤ 22 ∧ best.base + best.len ≠ 8 := by
  obtain ⟨base, len⟩ := best
  have h4 := inet_ntop4_text_length (src.drop 12)
  have henc1 := henc
  simp only [ntop6_encapsulated, decide_eq_true_eq] at henc1
  obtain ⟨hb, hl⟩ := henc1
  subst hb
  rcases hl with rfl | ⟨rfl, h5⟩
  · refine ⟨?_, by decide⟩
    simp [ntop6_from, henc]
    omega
  · refine ⟨?_, by decide⟩
    have hw := utoa_word_length src 5
    rw [List.getD_eq_getElem?_getD] at hw
    simp [ntop6_from, henc]
    omega

theorem inet_ntop6_text_length (src : List uint8_t) : (inet_ntop6_text src).length ≤ 45 := by
  simp only [inet_ntop6_text, List.length_append]
  cases henc : ntop6_encapsulated (ntop6_words src) (ntop6_best (ntop6_words src)) with
  | false =>
    have h := ntop6_from_length_plain src _ henc 8 0
    split
    · simp only [List.length_cons, List.length_nil]; omega
    · simp only [List.length_nil]; omega
  | true =>
    obtain ⟨h, hne⟩ := ntop6_from_length_encapsulated src _ henc
    simp only [hne, and_false, if_false, List.length_nil]
    omega

theorem inet_ntop_inet (src : List uint8_t) :
    inet_ntop .AF_INET src INET6_ADDRSTRLEN = some (inet_ntop4_text src) := by
  have h := inet_ntop4_text_length src
  have : (inet_ntop4_text src).length < INET6_ADDRSTRLEN := by
    simp only [INET6_ADDRSTRLEN]; omega
  simp [inet_ntop, this]

theorem inet_ntop_inet6 (src : List uint8_t) :
    inet_ntop .AF_INET6 src INET6_ADDRSTRLEN = some (inet_ntop6_text src) := by
  have h := inet_ntop6_text_length src
  have : (inet_ntop6_text src).length < INET6_ADDRSTRLEN := by
    simp only [INET6_ADDRSTRLEN]; omega
  simp [inet_ntop, this]

/-- What `format_sockaddr` leaves in the buffer for an IP record. -/
theorem format_sockaddr_ip (little_endian : Bool) {sa : sockaddr} (hip : sa.is_ip = true)
    (buf : List Char) (size : Nat) :
    format_sockaddr little_endian sa buf size = .ret (snprintf buf size (rendering sa)) := by
  cases sa with
  | inet sin =>
    simp only [format_sockaddr, sockaddr.sa_family, inet_ntop_inet, fmt_s, Option.getD_some,
      ntohs_load, rendering, ip_literal, host_port]
    rw [fmt_d_nat]
  | inet6 sin6 =>
    simp only [format_sockaddr, sockaddr.sa_family, inet_ntop_inet6, fmt_s, Option.getD_some,
      ntohs_load, rendering, ip_literal, host_port]
    rw [fmt_d_nat]
  | other n => simp [sockaddr.is_ip, sockaddr.sa_family] at hip

theorem snprintf_fits (buf : List Char) {size : Nat} {text : List Char}
    (h : text.length < size) : snprintf buf size text = text := by
  have h0 : size ≠ 0 := by omega
  simp only [snprintf, h0, if_false]
  exact List.take_of_length_le (by omega)

theorem parse_hostport_some {hostport host service : List Char} {path : Option (List Char)}
    (h : parse_hostport hostport = some (host, service, path)) :
    ':' ∉ host ∧ '/' ∉ service ∧
      hostport = host ++ ':' :: service ++ path_tail path ∧
      (path.isSome = true ↔ '/' ∈ hostport.drop (host.length + 1)) := by
  unfold parse_hostport at h
  cases hi : strchr hostport ':' with
  | none => simp [hi] at h
  | some i =>
    obtain ⟨hno, hsplit⟩ := strchr_eq_some hi
    have hlen : (hostport.take i).length = i := by
      have := congrArg List.length hsplit
      simp only [List.length_append, List.length_cons, List.length_take, List.length_drop] at this
      simp only [List.length_take]
      omega
    simp only [hi] at h
    cases hj : strchr (hostport.drop (i + 1)) '/' with
    | none =>
      simp only [hj, Option.some.injEq, Prod.mk.injEq] at h
      obtain ⟨rfl, rfl, rfl⟩ := h
      have hs := strchr_eq_none.mp hj
      refine ⟨hno, hs, ?_, ?_⟩
      · simpa [path_tail] using hsplit
      · rw [hlen]; simpa using hs
    | some j =>
      simp only [hj, Option.some.injEq, Prod.mk.injEq] at h
      obtain ⟨rfl, rfl, rfl⟩ := h
      obtain ⟨hno2, hsplit2⟩ := strchr_eq_some hj
      refine ⟨hno, hno2, ?_, ?_⟩
      · simp only [path_tail, List.append_assoc, List.cons_append]
        rw [← hsplit2]
        exact hsplit
      · rw [hlen, hsplit2]; simp

/-! ## The claims -/

/-- C1: when every spec has a `:` and the resolver succeeds on each with IP
records only, `resolve_remote_addresses` returns the concatenation, in spec
order, of the lists the resolver returned; its count and its length are the
sum of the per-spec result counts. -/
theorem resolve_remote_addresses_concat (env : libc) (hostports : List (List Char))
    (hcolon : ∀ s ∈ hostports, ':' ∈ s)
    (hok : ∀ s ∈ hostports, (lookup env s).1 = 0 ∧ ∀ sa ∈ (lookup env s).2, sa.is_ip = true) :
    ∃ c, (resolve_remote_addresses env hostports).result = .ret c ∧
      c.addrs = hostports.flatMap (fun s => (lookup env s).2) ∧
      c.n_addrs = (hostports.map (fun s => (lookup env s).2.length)).sum ∧
      c.addrs.length = (hostports.map (fun s => (lookup env s).2.length)).sum := by
  have h := resolve_loop_ok env hostports [] ⟨[], 0⟩ []
    (fun s hs => ⟨hcolon s hs, hok s hs⟩) rfl
  simp only [List.append_nil, List.nil_append, Nat.zero_add] at h
  refine ⟨_, by rw [resolve_remote_addresses, h]; rfl, rfl, rfl, ?_⟩
  simp [List.length_flatMap, Function.comp_def]

theorem resolve_remote_addresses_concat_witness :
    (∀ s ∈ ["localhost:80".toList, "localhost:443/x".toList], ':' ∈ s) ∧
    ∃ c, (resolve_remote_addresses stub
        ["localhost:80".toList, "localhost:443/x".toList]).result = .ret c ∧
      c.addrs = ["localhost:80".toList, "localhost:443/x".toList].flatMap
        (fun s => (lookup stub s).2) ∧
      c.n_addrs = (["localhost:80".toList, "localhost:443/x".toList].map
        (fun s => (lookup stub s).2.length)).sum ∧
      c.addrs.length = (["localhost:80".toList, "localhost:443/x".toList].map
        (fun s => (lookup stub s).2.length)).sum :=
  ⟨by decide, resolve_remote_addresses_concat stub _ (by decide) (by decide)⟩

/-- C2 (the code departs from the claim): with `fp` the standard output and
the one-record collection of 93.184.216.34 port 80, `fprint_addresses` puts
only the prefix and the suffix on `fp`; the rendered address goes to the
standard error, so the text on `fp` is not prefix + rendering + suffix. -/
theorem fprint_addresses_body_on_stderr :
    written .stdout (fprint_addresses true .stdout "Destinations: ".toList ", ".toList
        "\n".toList ⟨[example4], 1⟩).out = "Destinations: \n".toList ∧
    written .stderr (fprint_addresses true .stdout "Destinations: ".toList ", ".toList
        "\n".toList ⟨[example4], 1⟩).out = "[93.184.216.34]:80".toList ∧
    written .stdout (fprint_addresses true .stdout "Destinations: ".toList ", ".toList
        "\n".toList ⟨[example4], 1⟩).out
      ≠ "Destinations: ".toList ++ rendering example4 ++ "\n".toList ∧
    (fprint_addresses true .stdout "Destinations: ".toList ", ".toList
        "\n".toList ⟨[example4], 1⟩).result = .ret () := by
  decide

/-- C3: on an empty collection (`n_addrs = 0`) `fprint_addresses` makes no
write at all and returns: no stream receives any text, whatever the prefix,
separator and suffix. -/
theorem fprint_addresses_empty (little_endian : Bool) (fp : FILE)
    (pfx separator suffix : List Char) (addrs : List sockaddr) :
    fprint_addresses little_endian fp pfx separator suffix ⟨addrs, 0⟩ = ⟨[], .ret ()⟩ ∧
      ∀ f, written f
        (fprint_addresses little_endian fp pfx separator suffix ⟨addrs, 0⟩).out = [] :=
  ⟨rfl, fun _ => rfl⟩

/-- C5: for the IPv6 record of `::1` (fifteen zero octets, then 1) with port
443, on either byte order and with any buffer of ten bytes or more,
`format_sockaddr` returns exactly `[::1]:443`. -/
theorem format_sockaddr_loopback6 (little_endian : Bool) (flowinfo scope_id : Nat)
    (buf : List Char) (size : Nat) (hsize : 10 ≤ size) :
    format_sockaddr little_endian (.inet6 ⟨⟨1, 187⟩, flowinfo, loopback6, scope_id⟩) buf size
      = .ret "[::1]:443".toList := by
  have hr : rendering (.inet6 ⟨⟨1, 187⟩, flowinfo, loopback6, scope_id⟩)
      = "[::1]:443".toList := by
    simp only [rendering, ip_literal, host_port]
    decide
  have hip : (sockaddr.inet6 ⟨⟨1, 187⟩, flowinfo, loopback6, scope_id⟩).is_ip = true := rfl
  rw [format_sockaddr_ip little_endian hip, hr, snprintf_fits]
  simpa using hsize

theorem format_sockaddr_loopback6_witness :
    10 ≤ 110 ∧ format_sockaddr true example6 [] 110 = .ret "[::1]:443".toList :=
  ⟨by decide, format_sockaddr_loopback6 true 0 0 [] 110 (by decide)⟩

/-- C8: a spec with a `:` parses into host, service and optional path where
the host has no `:`, the service has no `/`, the path is there exactly when a
`/` follows the first `:`, and host + `:` + service (+ `/` + path) is the
spec again. -/
theorem parse_hostport_split (hostport : List Char) (hcolon : ':' ∈ hostport) :
    ∃ host service path, parse_hostport hostport = some (host, service, path) ∧
      ':' ∉ host ∧ '/' ∉ service ∧
      (path.isSome = true ↔ '/' ∈ hostport.drop (host.length + 1)) ∧
      hostport
        = host ++ ':' :: service ++ path_tail path := by
  obtain ⟨host, service, path, hp⟩ := parse_of_mem hcolon
  obtain ⟨h1, h2, h3, h4⟩ := parse_hostport_some hp
  exact ⟨host, service, path, hp, h1, h2, h4, h3⟩

theorem parse_hostport_split_witness :
    (':' ∈ "example.com:80/a/b".toList ∧ ':' ∈ "[::1]:80".toList) ∧
    parse_hostport "example.com:80/a/b".toList
      = some ("example.com".toList, "80".toList, some "a/b".toList) ∧
    parse_hostport "[::1]:80".toList = some ("[".toList, ":1]:80".toList, none) ∧
    ∃ host service path, parse_hostport "example.com:80/a/b".toList
        = some (host, service, path) ∧
      ':' ∉ host ∧ '/' ∉ service ∧
      (path.isSome = true ↔ '/' ∈ "example.com:80/a/b".toList.drop (host.length + 1)) ∧
      "example.com:80/a/b".toList
        = host ++ ':' :: service ++ path_tail path :=
  ⟨by decide, by decide, by decide, parse_hostport_split _ (by decide)⟩

/-- C6: when a spec has no `:` and every spec before it has one and resolves
without error, `resolve_remote_addresses` returns no collection; when the
earlier answers hold IP records only (the resolver's contract) it ends with
`exit(EX_USAGE)` after the usage message, having asked the resolver about
the earlier specs only. -/
theorem resolve_remote_addresses_missing_port (env : libc) (pre post : List (List Char))
    (bad : List Char) (hbad : ':' ∉ bad)
    (hpre : ∀ s ∈ pre, ':' ∈ s ∧ (lookup env s).1 = 0) :
    (∀ c, (resolve_remote_addresses env (pre ++ bad :: post)).result ≠ .ret c) ∧
    ((∀ s ∈ pre, ∀ sa ∈ (lookup env s).2, sa.is_ip = true) →
      resolve_remote_addresses env (pre ++ bad :: post) =
        ⟨pre.flatMap (fun s => (query s).toList),
          .exit EX_USAGE "Expected :port specification. See --help.\n".toList⟩) := by
  refine ⟨?_, ?_⟩
  · intro c hc
    exact hbad (resolve_loop_ret env _ _ _ c hc bad (by simp)).1
  · intro hip
    have h := resolve_loop_ok env pre (bad :: post) ⟨[], 0⟩ []
      (fun s hs => ⟨(hpre s hs).1, (hpre s hs).2, hip s hs⟩) rfl
    rw [resolve_remote_addresses, h]
    simp [resolve_loop, parse_hostport_eq_none.mpr hbad]

theorem resolve_remote_addresses_missing_port_witness :
    ':' ∉ "example.com".toList ∧
    (∀ s ∈ ["localhost:80".toList], ':' ∈ s ∧ (lookup stub s).1 = 0) ∧
    (∀ s ∈ ["localhost:80".toList], ∀ sa ∈ (lookup stub s).2, sa.is_ip = true) ∧
    (∀ c, (resolve_remote_addresses stub
      (["localhost:80".toList] ++ "example.com".toList :: ["localhost:81".toList])).result
        ≠ .ret c) ∧
    resolve_remote_addresses stub
      (["localhost:80".toList] ++ "example.com".toList :: ["localhost:81".toList]) =
      ⟨[("localhost".toList, "80".toList)],
        .exit 64 "Expected :port specification. See --help.\n".toList⟩ :=
  ⟨by decide, by decide, by decide,
    (resolve_remote_addresses_missing_port stub ["localhost:80".toList]
      ["localhost:81".toList] "example.com".toList (by decide) (by decide)).1,
    (resolve_remote_addresses_missing_port stub ["localhost:80".toList]
      ["localhost:81".toList] "example.com".toList (by decide) (by decide)).2 (by decide)⟩

/-- C7: when the resolver fails on a spec, and every spec before it has a `:`
and resolves without error, `resolve_remote_addresses` returns no collection;
when the earlier answers hold IP records only it ends with `errx(EX_NOHOST)`
and the message `Resolving <host>:<service>: <resolver error text>` for the
failing spec (its path cut off), and the resolver was asked about the earlier
specs and the failing one, in order, and about no later spec. -/
theorem resolve_remote_addresses_nohost (env : libc) (pre post : List (List Char))
    (bad host service : List Char) (path : Option (List Char))
    (hparse : parse_hostport bad = some (host, service, path))
    (herr : (env.getaddrinfo host service).1 ≠ 0)
    (hpre : ∀ s ∈ pre, ':' ∈ s ∧ (lookup env s).1 = 0) :
    (∀ c, (resolve_remote_addresses env (pre ++ bad :: post)).result ≠ .ret c) ∧
    '/' ∉ service ∧
    ((∀ s ∈ pre, ∀ sa ∈ (lookup env s).2, sa.is_ip = true) →
      resolve_remote_addresses env (pre ++ bad :: post) =
        ⟨pre.flatMap (fun s => (query s).toList) ++ [(host, service)],
          .exit EX_NOHOST (env.progname ++ ": ".toList
            ++ ("Resolving ".toList ++ host ++ ":".toList ++ service ++ ": ".toList
              ++ env.gai_strerror (env.getaddrinfo host service).1)
            ++ "\n".toList)⟩) := by
  refine ⟨?_, (parse_hostport_some hparse).2.1, ?_⟩
  · intro c hc
    have h := (resolve_loop_ret env _ _ _ c hc bad (by simp)).2
    rw [lookup_of_parse env hparse] at h
    exact herr h
  · intro hip
    have h := resolve_loop_ok env pre (bad :: post) ⟨[], 0⟩ []
      (fun s hs => ⟨(hpre s hs).1, (hpre s hs).2, hip s hs⟩) rfl
    rw [resolve_remote_addresses, h]
    simp [resolve_loop, hparse, herr, errx]

theorem resolve_remote_addresses_nohost_witness :
    parse_hostport "nowhere:80/x".toList = some ("nowhere".toList, "80".toList, some "x".toList) ∧
    (stub.getaddrinfo "nowhere".toList "80".toList).1 ≠ 0 ∧
    (∀ s ∈ ["localhost:80".toList], ':' ∈ s ∧ (lookup stub s).1 = 0) ∧
    (∀ s ∈ ["localhost:80".toList], ∀ sa ∈ (lookup stub s).2, sa.is_ip = true) ∧
    (∀ c, (resolve_remote_addresses stub
      (["localhost:80".toList] ++ "nowhere:80/x".toList :: ["localhost:81".toList])).result
        ≠ .ret c) ∧
    resolve_remote_addresses stub
      (["localhost:80".toList] ++ "nowhere:80/x".toList :: ["localhost:81".toList]) =
      ⟨[("localhost".toList, "80".toList), ("nowhere".toList, "80".toList)],
        .exit 68 "tcpkali: Resolving nowhere:80: Name or service not known\n".toList⟩ :=
  ⟨by decide, by decide, by decide, by decide,
    (resolve_remote_addresses_nohost stub ["localhost:80".toList] ["localhost:81".toList]
      "nowhere:80/x".toList "nowhere".toList "80".toList (some "x".toList)
      (by decide) (by decide) (by decide)).1,
    (resolve_remote_addresses_nohost stub ["localhost:80".toList] ["localhost:81".toList]
      "nowhere:80/x".toList "nowhere".toList "80".toList (some "x".toList)
      (by decide) (by decide) (by decide)).2.2 (by decide)⟩

/-- C9: a trailing path does not affect resolution. For a host without `:`
and a service without `/`, the spec host:service/path hands exactly
(host, service) to the resolver, and a pass over any list of specs has the
same calls and the same outcome as the pass with host:service in its place. -/
theorem resolve_remote_addresses_path_irrelevant (env : libc) (pre post : List (List Char))
    (h s p : List Char) (hh : ':' ∉ h) (hs : '/' ∉ s) :
    query (h ++ ":".toList ++ s ++ "/".toList ++ p) = some (h, s) ∧
    (resolve_remote_addresses env [h ++ ":".toList ++ s ++ "/".toList ++ p]).calls
      = [(h, s)] ∧
    resolve_remote_addresses env (pre ++ (h ++ ":".toList ++ s ++ "/".toList ++ p) :: post)
      = resolve_remote_addresses env (pre ++ (h ++ ":".toList ++ s) :: post) := by
  have e1 : h ++ ":".toList ++ s ++ "/".toList ++ p = h ++ ':' :: (s ++ '/' :: p) := by simp
  have e2 : h ++ ":".toList ++ s = h ++ ':' :: s := by simp
  have q1 : query (h ++ ':' :: (s ++ '/' :: p)) = some (h, s) :=
    query_of_parse (parse_hostport_path h s p hh hs)
  have q2 : query (h ++ ':' :: s) = some (h, s) :=
    query_of_parse (parse_hostport_plain h s hh hs)
  rw [e1, e2]
  refine ⟨q1, ?_, resolve_loop_congr env (q1.trans q2.symm) pre post _ _⟩
  simp only [resolve_remote_addresses, resolve_loop, parse_hostport_path h s p hh hs,
    List.nil_append]
  split
  · rfl
  · cases address_add_all ⟨[], 0⟩ (env.getaddrinfo h s).2 <;> rfl

theorem resolve_remote_addresses_path_irrelevant_witness :
    (':' ∉ "localhost".toList ∧ '/' ∉ "80".toList) ∧
    query ("localhost".toList ++ ":".toList ++ "80".toList ++ "/".toList ++ "a/b".toList)
      = some ("localhost".toList, "80".toList) ∧
    (resolve_remote_addresses stub
      ["localhost".toList ++ ":".toList ++ "80".toList ++ "/".toList ++ "a/b".toList]).calls
      = [("localhost".toList, "80".toList)] ∧
    resolve_remote_addresses stub (["localhost:1".toList]
        ++ ("localhost".toList ++ ":".toList ++ "80".toList ++ "/".toList ++ "a/b".toList)
          :: ["nowhere:2".toList])
      = resolve_remote_addresses stub (["localhost:1".toList]
        ++ ("localhost".toList ++ ":".toList ++ "80".toList) :: ["nowhere:2".toList]) :=
  ⟨by decide, resolve_remote_addresses_path_irrelevant stub ["localhost:1".toList]
    ["nowhere:2".toList] "localhost".toList "80".toList "a/b".toList (by decide) (by decide)⟩

/-- C10: adding an IPv4 or IPv6 record `r` to a collection of `n` records
returns a collection of `n + 1` records whose record `n` is `r` and whose
records `0..n-1` are those it had, in order; so a run of appends never
shrinks or reorders the collection and adds one to the count per append. -/
theorem address_add_append (c : addresses) (r : sockaddr) (hwf : c.wf)
    (hip : r.is_ip = true) :
    (∃ c1, address_add c r = .ret c1 ∧ c1.n_addrs = c.n_addrs + 1 ∧
      c1.addrs.length = c.n_addrs + 1 ∧ c1.addrs[c.n_addrs]? = some r ∧
      (∀ i, i < c.n_addrs → c1.addrs[i]? = c.addrs[i]?) ∧ c1.addrs = c.addrs ++ [r]) ∧
    (∀ rs : List sockaddr, (∀ sa ∈ rs, sa.is_ip = true) →
      ∃ c2, address_add_all c rs = .ret c2 ∧ c2.n_addrs = c.n_addrs + rs.length ∧
        c2.addrs = c.addrs ++ rs) := by
  have hlen : c.addrs.length = c.n_addrs := hwf
  refine ⟨⟨_, address_add_ip hwf hip, rfl, by simp [hlen], ?_, ?_, rfl⟩, ?_⟩
  · simp [← hlen]
  · intro i hi
    simp only
    rw [List.getElem?_append_left (by omega)]
  · intro rs hrs
    exact ⟨_, address_add_all_ip hrs hwf, rfl, rfl⟩

theorem address_add_append_witness :
    (addresses.wf ⟨[example4], 1⟩ ∧ example6.is_ip = true) ∧
    (∃ c1, address_add ⟨[example4], 1⟩ example6 = .ret c1 ∧ c1.n_addrs = 1 + 1 ∧
      c1.addrs.length = 1 + 1 ∧ c1.addrs[1]? = some example6 ∧
      (∀ i, i < 1 → c1.addrs[i]? = [example4][i]?) ∧ c1.addrs = [example4] ++ [example6]) ∧
    (∀ rs : List sockaddr, (∀ sa ∈ rs, sa.is_ip = true) →
      ∃ c2, address_add_all ⟨[example4], 1⟩ rs = .ret c2 ∧ c2.n_addrs = 1 + rs.length ∧
        c2.addrs = [example4] ++ rs) :=
  ⟨by decide, address_add_append ⟨[example4], 1⟩ example6 (by decide) (by decide)⟩

/-- C4: for an IPv4 or IPv6 record and a buffer that holds the text,
`format_sockaddr` returns `[` + ip-literal + `]:` + port on either byte
order: the literal is the textual form of the address by family (for IPv4
the four octets as canonical decimal numerals joined by dots), the brackets
are there for both families, and the port is the canonical decimal numeral
(digits only, no leading zero) of first port octet * 256 + second, a number
below 65536. -/
theorem format_sockaddr_rendering (little_endian : Bool) (sa : sockaddr) (buf : List Char)
    (size : Nat) (hip : sa.is_ip = true) (hsize : (rendering sa).length < size) :
    format_sockaddr little_endian sa buf size
      = .ret ('[' :: ip_literal sa ++ "]:".toList ++ utoa 10 (host_port sa)) ∧
    host_port sa < 65536 ∧
    is_decimal (utoa 10 (host_port sa)) ∧ decimal_value (utoa 10 (host_port sa)) = host_port sa ∧
    (∀ sin, sa = .inet sin →
      ∃ a b c d, ip_literal sa = a ++ '.' :: b ++ '.' :: c ++ '.' :: d ∧
        is_decimal a ∧ decimal_value a = sin.sin_addr.b0.val ∧
        is_decimal b ∧ decimal_value b = sin.sin_addr.b1.val ∧
        is_decimal c ∧ decimal_value c = sin.sin_addr.b2.val ∧
        is_decimal d ∧ decimal_value d = sin.sin_addr.b3.val) ∧
    (∀ sin6, sa = .inet6 sin6 → ip_literal sa = inet_ntop6_text sin6.sin6_addr.val) := by
  refine ⟨?_, ?_, (utoa_decimal _).1, (utoa_decimal _).2, ?_, ?_⟩
  · rw [format_sockaddr_ip little_endian hip, snprintf_fits buf hsize]
    rfl
  · cases sa with
    | inet sin =>
      have h1 := sin.sin_port.hi.isLt
      have h2 := sin.sin_port.lo.isLt
      simp only [host_port]; omega
    | inet6 sin6 =>
      have h1 := sin6.sin6_port.hi.isLt
      have h2 := sin6.sin6_port.lo.isLt
      simp only [host_port]; omega
    | other n => simp [host_port]
  · rintro sin rfl
    exact ⟨utoa 10 sin.sin_addr.b0.val, utoa 10 sin.sin_addr.b1.val,
      utoa 10 sin.sin_addr.b2.val, utoa 10 sin.sin_addr.b3.val, rfl,
      (utoa_decimal _).1, (utoa_decimal _).2, (utoa_decimal _).1, (utoa_decimal _).2,
      (utoa_decimal _).1, (utoa_decimal _).2, (utoa_decimal _).1, (utoa_decimal _).2⟩
  · rintro sin6 rfl
    rfl

theorem format_sockaddr_rendering_witness :
    (example4.is_ip = true ∧ (rendering example4).length < 110) ∧
    format_sockaddr true example4 [] 110 = .ret "[93.184.216.34]:80".toList ∧
    format_sockaddr false example4 [] 110 = .ret "[93.184.216.34]:80".toList :=
  ⟨by decide, (format_sockaddr_rendering true example4 [] 110 (by decide) (by decide)).1,
    (format_sockaddr_rendering false example4 [] 110 (by decide) (by decide)).1⟩

/-! ## Lemmas on faults and on the size of the text -/

theorem is_ip_false_iff (sa : sockaddr) :
    sa.is_ip = false ↔ sa.sa_family ≠ .AF_INET ∧ sa.sa_family ≠ .AF_INET6 := by
  cases sa <;> simp [sockaddr.is_ip, sockaddr.sa_family]

theorem format_sockaddr_not_ip (little_endian : Bool) {sa : sockaddr} (hip : sa.is_ip = false)
    (buf : List Char) (size : Nat) :
    format_sockaddr little_endian sa buf size
      = .assert_fail "!\"ipv4 or ipv6 expected\"".toList := by
  cases sa with
  | inet sin => simp [sockaddr.is_ip, sockaddr.sa_family] at hip
  | inet6 sin6 => simp [sockaddr.is_ip, sockaddr.sa_family] at hip
  | other n => rfl

theorem address_add_mem_true (aseq : addresses) (sa : sockaddr) :
    address_add_mem true aseq sa = address_add aseq sa := by
  cases sa <;> rfl

theorem realloc_length (block : List sockaddr) (n : Nat) : (realloc block n).length = n := by
  simp only [realloc, List.length_append, List.length_take, List.length_replicate]
  omega

theorem realloc_getElem? (block : List sockaddr) {n i : Nat} (hn : i < n)
    (hi : i < block.length) : (realloc block n)[i]? = block[i]? := by
  simp only [realloc]
  rw [List.getElem?_append_left (by simp only [List.length_take]; omega),
    List.getElem?_take_of_lt hn]

/-- What `address_add` returns for an IP record, for any block and count. -/
theorem address_add_ip_any (aseq : addresses) {sa : sockaddr} (hip : sa.is_ip = true) :
    address_add aseq sa = .ret ⟨(realloc aseq.addrs (aseq.n_addrs + 1)).set aseq.n_addrs sa,
      aseq.n_addrs + 1⟩ := by
  cases sa with
  | inet sin => rfl
  | inet6 sin6 => rfl
  | other n => simp [sockaddr.is_ip, sockaddr.sa_family] at hip

theorem host_port_lt (sa : sockaddr) : host_port sa < 65536 := by
  cases sa with
  | inet sin =>
    have h1 := sin.sin_port.hi.isLt
    have h2 := sin.sin_port.lo.isLt
    simp only [host_port]; omega
  | inet6 sin6 =>
    have h1 := sin6.sin6_port.hi.isLt
    have h2 := sin6.sin6_port.lo.isLt
    simp only [host_port]; omega
  | other n => simp [host_port]

theorem utoa_port_length (sa : sockaddr) : (utoa 10 (host_port sa)).length ≤ 5 :=
  utoa_length (by decide) (by decide) (Nat.lt_of_lt_of_le (host_port_lt sa) (by decide))

theorem ip_literal_length (sa : sockaddr) :
    (ip_literal sa).length ≤ 45 ∧ (∀ sin, sa = .inet sin → (ip_literal sa).length ≤ 15) := by
  cases sa with
  | inet sin =>
    have h := inet_ntop4_text_length sin.sin_addr.octets
    exact ⟨by simp only [ip_literal]; omega, fun _ _ => by simp only [ip_literal]; omega⟩
  | inet6 sin6 =>
    exact ⟨inet_ntop6_text_length _, fun _ h => by simp at h⟩
  | other n => exact ⟨by simp [ip_literal], fun _ h => by simp at h⟩

theorem rendering_length (sa : sockaddr) :
    (rendering sa).length = (ip_literal sa).length + (utoa 10 (host_port sa)).length + 3 := by
  simp [rendering]
  omega

theorem rendering_length_le (sa : sockaddr) : (rendering sa).length ≤ 53 := by
  have h1 := (ip_literal_length sa).1
  have h2 := utoa_port_length sa
  rw [rendering_length]
  omega

theorem rendering_ne_nil (sa : sockaddr) : 0 < (rendering sa).length := by
  rw [rendering_length]
  omega

/-- With the 110 byte buffer of `fprint_addresses` nothing is cut off. -/
theorem format_sockaddr_buf (little_endian : Bool) {sa : sockaddr} (hip : sa.is_ip = true)
    (buf : List Char) :
    format_sockaddr little_endian sa buf (INET6_ADDRSTRLEN + 64) = .ret (rendering sa) := by
  have h := rendering_length_le sa
  rw [format_sockaddr_ip little_endian hip, snprintf_fits]
  simp only [INET6_ADDRSTRLEN]
  omega

/-! ## Lemmas on the writes of `fprint_addresses` -/

theorem written_append (fp : FILE) (a b : List Write) :
    written fp (a ++ b) = written fp a ++ written fp b := by
  induction a with
  | nil => rfl
  | cons w a ih =>
    obtain ⟨f, text⟩ := w
    simp only [List.cons_append, written]
    split <;> simp [ih]

theorem written_same (fp : FILE) (text : List Char) (rest : List Write) :
    written fp ((fp, text) :: rest) = text ++ written fp rest := by
  simp [written]

theorem written_other {f fp : FILE} (h : f ≠ fp) (text : List Char) (rest : List Write) :
    written fp ((f, text) :: rest) = written fp rest := by
  simp [written, h]

/-- The iterations after the first: a separator and a rendering for each
record left, and the suffix after the last. -/
theorem fprint_addresses_from_tail (little_endian : Bool) (fp : FILE)
    (pfx separator suffix : List Char) (es : List sockaddr)
    (hip : ∀ x ∈ es, x.is_ip = true) (k : Nat) :
    ∀ n, 1 ≤ n → n + (k + 1) = es.length →
      fprint_addresses_from little_endian fp pfx separator suffix ⟨es, es.length⟩ (k + 1) n =
        ⟨(es.drop n).flatMap (fun x => [(fp, separator), (FILE.stderr, rendering x)])
          ++ [(fp, suffix)], .ret ()⟩ := by
  induction k with
  | zero =>
    intro n hn hlen
    have hlt : n < es.length := by omega
    have hn0 : n ≠ 0 := by omega
    have hlast : n = es.length - 1 := by omega
    have hdrop : es.drop (n + 1) = [] := List.drop_eq_nil_of_le (by omega)
    rw [List.drop_eq_getElem_cons hlt, hdrop]
    simp only [fprint_addresses_from, List.getD_eq_getElem _ _ hlt,
      format_sockaddr_buf little_endian (hip _ (List.getElem_mem hlt)), hn0, if_false]
    rw [if_pos hlast]
    simp
  | succ k ih =>
    intro n hn hlen
    have hlt : n < es.length := by omega
    have hn0 : n ≠ 0 := by omega
    have hlast : ¬ n = es.length - 1 := by omega
    have hrec := ih (n + 1) (by omega) (by omega)
    have hd := List.drop_eq_getElem_cons hlt
    rw [fprint_addresses_from]
    simp only [List.getD_eq_getElem _ _ hlt,
      format_sockaddr_buf little_endian (hip _ (List.getElem_mem hlt)), hn0, if_false]
    rw [if_neg hlast, hrec, hd]
    simp only [List.flatMap_cons, List.cons_append, List.nil_append]

/-- The writes of `fprint_addresses` on a collection of IP records. -/
theorem fprint_addresses_writes (little_endian : Bool) (fp : FILE)
    (pfx separator suffix : List Char) (es : List sockaddr)
    (hip : ∀ x ∈ es, x.is_ip = true) :
    fprint_addresses little_endian fp pfx separator suffix ⟨es, es.length⟩ =
      ⟨expected_writes fp pfx separator suffix es, .ret ()⟩ := by
  cases es with
  | nil => rfl
  | cons e rest =>
    have he := format_sockaddr_buf little_endian (hip e (by simp)) []
    cases rest with
    | nil =>
      simp [fprint_addresses, fprint_addresses_from, he, expected_writes]
    | cons e2 rest =>
      have htail := fprint_addresses_from_tail little_endian fp pfx separator suffix
        (e :: e2 :: rest) hip rest.length 1 (by omega) (by simp; omega)
      simp only [List.length_cons] at htail
      simp only [fprint_addresses, List.length_cons, expected_writes]
      rw [fprint_addresses_from]
      simp only [List.getD_cons_zero, he, if_true]
      rw [htail]
      simp

theorem written_tail (fp : FILE) (separator : List Char) (rest : List sockaddr) :
    (fp ≠ .stderr →
      written fp (rest.flatMap (fun x => [(fp, separator), (FILE.stderr, rendering x)]))
        = (List.replicate rest.length separator).flatten ∧
      written .stderr (rest.flatMap (fun x => [(fp, separator), (FILE.stderr, rendering x)]))
        = rest.flatMap rendering) ∧
    written .stderr
      (rest.flatMap (fun x => [(FILE.stderr, separator), (FILE.stderr, rendering x)]))
        = rest.flatMap (fun x => separator ++ rendering x) := by
  induction rest with
  | nil => exact ⟨fun _ => ⟨rfl, rfl⟩, rfl⟩
  | cons x rest ih =>
    refine ⟨fun hne => ?_, ?_⟩
    · obtain ⟨h1, h2⟩ := ih.1 hne
      refine ⟨?_, ?_⟩
      · simp only [List.flatMap_cons, List.cons_append, List.nil_append, written_same,
          written_other (Ne.symm hne), h1, List.length_cons, List.replicate_succ,
          List.flatten_cons]
      · simp only [List.flatMap_cons, List.cons_append, List.nil_append, written_same,
          written_other hne, h2]
    · simp only [List.flatMap_cons, List.cons_append, List.nil_append, written_same, ih.2,
        List.append_assoc]

theorem length_flatten_replicate (n : Nat) (l : List Char) :
    (List.replicate n l).flatten.length = n * l.length := by
  induction n with
  | zero => simp
  | succ n ih => simp [List.replicate_succ, ih, Nat.succ_mul, Nat.add_comm]

theorem length_flatMap_framed (separator : List Char) (rest : List sockaddr) :
    rest.length * separator.length
      ≤ (rest.flatMap (fun x => separator ++ rendering x)).length := by
  induction rest with
  | nil => simp
  | cons x rest ih =>
    simp only [List.flatMap_cons, List.length_append, List.length_cons, Nat.succ_mul]
    omega

theorem written_expected_other {fp : FILE} (hne : fp ≠ .stderr)
    (pfx separator suffix : List Char) (e : sockaddr) (rest : List sockaddr) :
    written fp (expected_writes fp pfx separator suffix (e :: rest))
      = pfx ++ (List.replicate rest.length separator).flatten ++ suffix ∧
    written .stderr (expected_writes fp pfx separator suffix (e :: rest))
      = rendering e ++ rest.flatMap rendering := by
  obtain ⟨h1, h2⟩ := (written_tail fp separator rest).1 hne
  have hsfx1 : written fp [(fp, suffix)] = suffix := by simp [written]
  have hsfx2 : written .stderr [(fp, suffix)] = [] := by simp [written, hne]
  refine ⟨?_, ?_⟩
  · simp only [expected_writes, List.cons_append, written_same, written_other (Ne.symm hne),
      written_append, h1, hsfx1, List.append_assoc]
  · simp only [expected_writes, List.cons_append, written_same, written_other hne,
      written_append, h2, hsfx2, List.append_nil]
    simp [written]

theorem written_expected_stderr (pfx separator suffix : List Char) (e : sockaddr)
    (rest : List sockaddr) :
    written .stderr (expected_writes .stderr pfx separator suffix (e :: rest))
      = combined_text pfx separator suffix (e :: rest) := by
  have hsfx : written .stderr [(FILE.stderr, suffix)] = suffix := by simp [written]
  simp only [expected_writes, combined_text, List.cons_append, written_same, written_append,
    (written_tail .stderr separator rest).2, hsfx, List.append_assoc]

theorem combined_text_longer (pfx separator suffix : List Char) (e : sockaddr)
    (rest : List sockaddr) :
    (pfx ++ (List.replicate rest.length separator).flatten ++ suffix).length
      < (combined_text pfx separator suffix (e :: rest)).length := by
  have h1 := length_flatMap_framed separator rest
  have h2 := rendering_ne_nil e
  simp only [combined_text, List.length_append, length_flatten_replicate]
  omega

theorem queries_of_colon (pre : List (List Char)) (h : ∀ s ∈ pre, ':' ∈ s) :
    (pre.flatMap (fun s => (query s).toList)).map some = pre.map query := by
  induction pre with
  | nil => rfl
  | cons x pre ih =>
    obtain ⟨host, service, path, hp⟩ := parse_of_mem (h x (by simp))
    have := ih (fun s hs => h s (by simp [hs]))
    simp only [List.flatMap_cons, List.map_append, query_of_parse hp]
    rw [this, List.map_cons, query_of_parse hp]
    rfl

/-! ## The claims on faults, order and size -/

/-- C11: for a record whose family tag is neither `AF_INET` nor `AF_INET6`,
`format_sockaddr` returns no string but ends in the failed assertion
`!"ipv4 or ipv6 expected"`; and it faults for such records only: for an IPv4
or IPv6 record it returns a string. It never exits. -/
theorem format_sockaddr_fault (little_endian : Bool) (sa : sockaddr) (buf : List Char)
    (size : Nat) :
    (sa.sa_family ≠ .AF_INET → sa.sa_family ≠ .AF_INET6 →
      format_sockaddr little_endian sa buf size
        = .assert_fail "!\"ipv4 or ipv6 expected\"".toList ∧
      ∀ text, format_sockaddr little_endian sa buf size ≠ .ret text) ∧
    ((∃ expr, format_sockaddr little_endian sa buf size = .assert_fail expr) ↔
      (sa.sa_family ≠ .AF_INET ∧ sa.sa_family ≠ .AF_INET6)) ∧
    (sa.is_ip = true → ∃ text, format_sockaddr little_endian sa buf size = .ret text) ∧
    (∀ status err, format_sockaddr little_endian sa buf size ≠ .exit status err) := by
  cases hip : sa.is_ip with
  | false =>
    have hf := format_sockaddr_not_ip little_endian hip buf size
    have hfam := (is_ip_false_iff sa).mp hip
    refine ⟨fun _ _ => ⟨hf, fun text => by rw [hf]; simp⟩, ?_, by simp, ?_⟩
    · exact ⟨fun _ => hfam, fun _ => ⟨_, hf⟩⟩
    · intro status err; rw [hf]; simp
  | true =>
    have hf := format_sockaddr_ip little_endian hip buf size
    have hfam : ¬ (sa.sa_family ≠ .AF_INET ∧ sa.sa_family ≠ .AF_INET6) := by
      rw [← is_ip_false_iff, hip]; simp
    refine ⟨fun h1 h2 => absurd ⟨h1, h2⟩ hfam, ?_, fun _ => ⟨_, hf⟩, ?_⟩
    · constructor
      · rintro ⟨expr, he⟩
        rw [hf] at he
        simp at he
      · intro h
        exact absurd h hfam
    · intro status err; rw [hf]; simp

theorem format_sockaddr_fault_witness :
    ((sockaddr.other 1).sa_family ≠ .AF_INET ∧ (sockaddr.other 1).sa_family ≠ .AF_INET6) ∧
    format_sockaddr true (.other 1) [] 110 = .assert_fail "!\"ipv4 or ipv6 expected\"".toList ∧
    (∀ text, format_sockaddr true (.other 1) [] 110 ≠ .ret text) ∧
    ∃ text, format_sockaddr true example4 [] 110 = .ret text :=
  ⟨by decide,
    ((format_sockaddr_fault true (.other 1) [] 110).1 (by decide) (by decide)).1,
    ((format_sockaddr_fault true (.other 1) [] 110).1 (by decide) (by decide)).2,
    (format_sockaddr_fault true example4 [] 110).2.2.1 (by decide)⟩

/-- C12: append is all-or-nothing. Whether or not `realloc` succeeds,
`address_add` either returns the collection with the count plus one, a block
of that many slots, the record in the last slot (so the tag of the slot is
the tag of the record) and the earlier slots as they were, or it ends in a
failed assertion; it returns only for an IPv4 or IPv6 record and a
successful `realloc`, and for a record of another family it always faults. -/
theorem address_add_all_or_nothing (mem_ok : Bool) (c : addresses) (r : sockaddr) :
    ((∃ c1, address_add_mem mem_ok c r = .ret c1) ∨
      (∃ expr, address_add_mem mem_ok c r = .assert_fail expr)) ∧
    (∀ c1, address_add_mem mem_ok c r = .ret c1 →
      mem_ok = true ∧ r.is_ip = true ∧ c1.n_addrs = c.n_addrs + 1 ∧
      c1.addrs.length = c.n_addrs + 1 ∧ c1.addrs[c.n_addrs]? = some r ∧
      (c1.addrs[c.n_addrs]?.map sockaddr.sa_family = some r.sa_family) ∧
      (∀ i, i < c.n_addrs → i < c.addrs.length → c1.addrs[i]? = c.addrs[i]?) ∧
      (c.wf → c1.addrs = c.addrs ++ [r])) ∧
    (r.is_ip = false → ∃ expr, address_add_mem mem_ok c r = .assert_fail expr) ∧
    (mem_ok = false → ∃ expr, address_add_mem mem_ok c r = .assert_fail expr) ∧
    (mem_ok = true → address_add_mem mem_ok c r = address_add c r) := by
  cases mem_ok with
  | false =>
    have hf : address_add_mem false c r = .assert_fail "aseq->addrs".toList := rfl
    refine ⟨Or.inr ⟨_, hf⟩, ?_, fun _ => ⟨_, hf⟩, fun _ => ⟨_, hf⟩, by simp⟩
    intro c1 h
    rw [hf] at h
    simp at h
  | true =>
    rw [address_add_mem_true]
    cases hip : r.is_ip with
    | false =>
      have hf := address_add_not_ip c hip
      refine ⟨Or.inr ⟨_, hf⟩, ?_, fun _ => ⟨_, hf⟩, by simp, fun _ => rfl⟩
      intro c1 h
      rw [hf] at h
      simp at h
    | true =>
      have hf := address_add_ip_any c hip
      have hlen := realloc_length c.addrs (c.n_addrs + 1)
      refine ⟨Or.inl ⟨_, hf⟩, ?_, by simp, by simp, fun _ => rfl⟩
      intro c1 h
      rw [hf] at h
      simp only [Outcome.ret.injEq] at h
      subst h
      have hget : ((realloc c.addrs (c.n_addrs + 1)).set c.n_addrs r)[c.n_addrs]? = some r := by
        rw [List.getElem?_set_self (by omega)]
      refine ⟨rfl, rfl, rfl, by simp [hlen], hget, by rw [hget]; rfl, ?_, ?_⟩
      · intro i hi hil
        simp only
        rw [List.getElem?_set_ne (by omega), realloc_getElem? _ (by omega) hil]
      · intro hwf
        have h2 := address_add_ip hwf hip
        rw [hf] at h2
        simp only [Outcome.ret.injEq, addresses.mk.injEq] at h2
        exact h2.1

theorem address_add_all_or_nothing_witness :
    (sockaddr.other 1).is_ip = false ∧
    (∃ expr, address_add_mem true ⟨[example4], 1⟩ (.other 1) = .assert_fail expr) ∧
    (∃ expr, address_add_mem false ⟨[example4], 1⟩ example6 = .assert_fail expr) ∧
    address_add_mem true ⟨[example4], 1⟩ example6 = .ret ⟨[example4, example6], 2⟩ ∧
    (∀ c1, address_add_mem true ⟨[example4], 1⟩ example6 = .ret c1 →
      true = true ∧ example6.is_ip = true ∧ c1.n_addrs = 1 + 1 ∧
      c1.addrs.length = 1 + 1 ∧ c1.addrs[1]? = some example6 ∧
      (c1.addrs[1]?.map sockaddr.sa_family = some example6.sa_family) ∧
      (∀ i, i < 1 → i < [example4].length → c1.addrs[i]? = [example4][i]?) ∧
      (addresses.wf ⟨[example4], 1⟩ → c1.addrs = [example4] ++ [example6])) :=
  ⟨by decide,
    (address_add_all_or_nothing true ⟨[example4], 1⟩ (.other 1)).2.2.1 (by decide),
    (address_add_all_or_nothing false ⟨[example4], 1⟩ example6).2.2.2.1 rfl,
    by decide,
    (address_add_all_or_nothing true ⟨[example4], 1⟩ example6).2.1⟩

/-- C13: for a collection of one or more IP records `fprint_addresses` makes
the writes prefix on `fp`, rendering of the first record on the standard
error, then separator on `fp` and rendering on the standard error for each
further record, and the suffix on `fp` last, and returns. When `fp` is not
the standard error, `fp` receives the prefix, one separator per further
record and the suffix, the standard error receives the renderings, and the
text on `fp` is not the framed text; when `fp` is the standard error the
text on it is the framed text prefix + e1 + sep + ... + en + suffix. -/
theorem fprint_addresses_events (little_endian : Bool) (fp : FILE)
    (pfx separator suffix : List Char) (e : sockaddr) (rest : List sockaddr)
    (hip : ∀ x ∈ e :: rest, x.is_ip = true) :
    fprint_addresses little_endian fp pfx separator suffix ⟨e :: rest, rest.length + 1⟩
      = ⟨(fp, pfx) :: (FILE.stderr, rendering e)
          :: rest.flatMap (fun x => [(fp, separator), (FILE.stderr, rendering x)])
          ++ [(fp, suffix)], .ret ()⟩ ∧
    (fp ≠ .stderr →
      written fp
          (fprint_addresses little_endian fp pfx separator suffix
            ⟨e :: rest, rest.length + 1⟩).out
        = pfx ++ (List.replicate rest.length separator).flatten ++ suffix ∧
      written .stderr
          (fprint_addresses little_endian fp pfx separator suffix
            ⟨e :: rest, rest.length + 1⟩).out
        = rendering e ++ rest.flatMap rendering ∧
      written fp
          (fprint_addresses little_endian fp pfx separator suffix
            ⟨e :: rest, rest.length + 1⟩).out
        ≠ combined_text pfx separator suffix (e :: rest)) ∧
    (fp = .stderr →
      written fp
          (fprint_addresses little_endian fp pfx separator suffix
            ⟨e :: rest, rest.length + 1⟩).out
        = combined_text pfx separator suffix (e :: rest)) := by
  have hw := fprint_addresses_writes little_endian fp pfx separator suffix (e :: rest) hip
  simp only [List.length_cons] at hw
  refine ⟨by rw [hw]; rfl, ?_, ?_⟩
  · intro hne
    obtain ⟨h1, h2⟩ := written_expected_other hne pfx separator suffix e rest
    rw [hw]
    refine ⟨h1, h2, ?_⟩
    intro heq
    have hlt := combined_text_longer pfx separator suffix e rest
    simp only at heq
    rw [← heq, h1] at hlt
    exact Nat.lt_irrefl _ hlt
  · intro heq
    subst heq
    rw [hw]
    exact written_expected_stderr pfx separator suffix e rest

theorem fprint_addresses_events_witness :
    (∀ x ∈ example4 :: [example6, example4], x.is_ip = true) ∧
    fprint_addresses true .stdout "P".toList ", ".toList "S".toList
        ⟨[example4, example6, example4], 3⟩
      = ⟨[(.stdout, "P".toList), (.stderr, "[93.184.216.34]:80".toList),
          (.stdout, ", ".toList), (.stderr, "[::1]:443".toList),
          (.stdout, ", ".toList), (.stderr, "[93.184.216.34]:80".toList),
          (.stdout, "S".toList)], .ret ()⟩ ∧
    written .stdout (fprint_addresses true .stdout "P".toList ", ".toList "S".toList
        ⟨[example4, example6, example4], 3⟩).out = "P, , S".toList ∧
    written .stderr (fprint_addresses true .stderr "P".toList ", ".toList "S".toList
        ⟨[example4, example6, example4], 3⟩).out
      = "P[93.184.216.34]:80, [::1]:443, [93.184.216.34]:80S".toList :=
  ⟨by decide,
    (fprint_addresses_events true .stdout "P".toList ", ".toList "S".toList example4
      [example6, example4] (by decide)).1.trans (by decide),
    ((fprint_addresses_events true .stdout "P".toList ", ".toList "S".toList example4
      [example6, example4] (by decide)).2.1 (by decide)).1.trans (by decide),
    ((fprint_addresses_events true .stderr "P".toList ", ".toList "S".toList example4
      [example6, example4] (by decide)).2.2 rfl).trans (by decide)⟩

/-- C14: specs are handled in order and checked one at a time. When the
specs `pre` all have a `:` and resolve to IP records, the resolver is asked
about each of them once, in input order. If the next spec has no `:`, the
pass ends with `exit(EX_USAGE)` after exactly those calls; if the resolver
fails on the next spec, the pass ends with `errx(EX_NOHOST)` after those
calls and the call for that spec. In both cases no later spec is looked at,
whatever the later specs are, so the first failing spec decides the error. -/
theorem resolve_remote_addresses_lazy (env : libc) (pre post : List (List Char))
    (hpre : ∀ s ∈ pre, ':' ∈ s ∧ (lookup env s).1 = 0 ∧
      ∀ sa ∈ (lookup env s).2, sa.is_ip = true) :
    ((resolve_remote_addresses env pre).calls.map some = pre.map query ∧
      ∃ c, (resolve_remote_addresses env pre).result = .ret c) ∧
    (∀ bad, ':' ∉ bad →
      (resolve_remote_addresses env (pre ++ bad :: post)).calls.map some = pre.map query ∧
      (resolve_remote_addresses env (pre ++ bad :: post)).result
        = .exit EX_USAGE "Expected :port specification. See --help.\n".toList) ∧
    (∀ bad host service path, parse_hostport bad = some (host, service, path) →
      (env.getaddrinfo host service).1 ≠ 0 →
      (resolve_remote_addresses env (pre ++ bad :: post)).calls.map some
        = (pre ++ [bad]).map query ∧
      (resolve_remote_addresses env (pre ++ bad :: post)).calls
        = (resolve_remote_addresses env pre).calls ++ [(host, service)] ∧
      (resolve_remote_addresses env (pre ++ bad :: post)).result
        = .exit EX_NOHOST (env.progname ++ ": ".toList
            ++ ("Resolving ".toList ++ host ++ ":".toList ++ service ++ ": ".toList
              ++ env.gai_strerror (env.getaddrinfo host service).1)
            ++ "\n".toList)) := by
  have hq := queries_of_colon pre (fun s hs => (hpre s hs).1)
  have hall := resolve_loop_ok env pre [] ⟨[], 0⟩ [] hpre rfl
  simp only [List.append_nil, List.nil_append] at hall
  have hcalls : (resolve_remote_addresses env pre).calls
      = pre.flatMap (fun s => (query s).toList) := by
    rw [resolve_remote_addresses, hall]; rfl
  refine ⟨⟨by rw [hcalls, hq], ⟨_, by rw [resolve_remote_addresses, hall]; rfl⟩⟩, ?_, ?_⟩
  · intro bad hbad
    have h := resolve_loop_ok env pre (bad :: post) ⟨[], 0⟩ [] hpre rfl
    rw [resolve_remote_addresses, h]
    simp only [resolve_loop, parse_hostport_eq_none.mpr hbad, List.nil_append]
    exact ⟨hq, trivial⟩
  · intro bad host service path hparse herr
    have h := resolve_loop_ok env pre (bad :: post) ⟨[], 0⟩ [] hpre rfl
    rw [hcalls, resolve_remote_addresses, h]
    simp only [resolve_loop, hparse, herr, ne_eq, not_false_eq_true, if_true, List.nil_append,
      errx]
    refine ⟨?_, trivial, trivial⟩
    simp only [List.map_append, hq, List.map_cons, List.map_nil, query_of_parse hparse]

theorem resolve_remote_addresses_lazy_witness :
    (∀ s ∈ ["localhost:80".toList, "localhost:81/p".toList], ':' ∈ s ∧
      (lookup stub s).1 = 0 ∧ ∀ sa ∈ (lookup stub s).2, sa.is_ip = true) ∧
    ':' ∉ "example.com".toList ∧
    (resolve_remote_addresses stub (["localhost:80".toList, "localhost:81/p".toList]
        ++ "example.com".toList :: ["nowhere:1".toList])) =
      ⟨[("localhost".toList, "80".toList), ("localhost".toList, "81".toList)],
        .exit 64 "Expected :port specification. See --help.\n".toList⟩ ∧
    (resolve_remote_addresses stub (["localhost:80".toList, "localhost:81/p".toList]
        ++ "nowhere:1".toList :: ["example.com".toList])).calls.map some
      = (["localhost:80".toList, "localhost:81/p".toList] ++ ["nowhere:1".toList]).map query ∧
    (resolve_remote_addresses stub (["localhost:80".toList, "localhost:81/p".toList]
        ++ "nowhere:1".toList :: ["example.com".toList])).result
      = .exit 68 "tcpkali: Resolving nowhere:1: Name or service not known\n".toList :=
  ⟨by decide, by decide, by decide,
    ((resolve_remote_addresses_lazy stub ["localhost:80".toList, "localhost:81/p".toList]
      ["example.com".toList] (by decide)).2.2 "nowhere:1".toList "nowhere".toList
      "1".toList none (by decide) (by decide)).1,
    ((resolve_remote_addresses_lazy stub ["localhost:80".toList, "localhost:81/p".toList]
      ["example.com".toList] (by decide)).2.2 "nowhere:1".toList "nowhere".toList
      "1".toList none (by decide) (by decide)).2.2⟩

/-- C15: for an IPv4 or IPv6 record the ip-literal has at most 45
characters (`INET6_ADDRSTRLEN` - 1), the port at most 5 digits and the text
`[ip-literal]:port` at most 53 characters (23 for IPv4), less than the 110
bytes (`INET6_ADDRSTRLEN` + 64) of the buffer `fprint_addresses` passes; so
with that buffer, as with any of more than 53 bytes, `format_sockaddr`
returns the whole text, and what `fprint_addresses` prints for a collection
of IP records are the whole texts. -/
theorem format_sockaddr_not_truncated (little_endian : Bool) (sa : sockaddr)
    (buf : List Char) (hip : sa.is_ip = true) :
    (ip_literal sa).length ≤ INET6_ADDRSTRLEN - 1 ∧ INET6_ADDRSTRLEN - 1 = 45 ∧
    (utoa 10 (host_port sa)).length ≤ 5 ∧
    (rendering sa).length ≤ 53 ∧
    (∀ sin, sa = .inet sin → (rendering sa).length ≤ 23) ∧
    53 < INET6_ADDRSTRLEN + 64 ∧ INET6_ADDRSTRLEN + 64 = 110 ∧
    format_sockaddr little_endian sa buf (INET6_ADDRSTRLEN + 64) = .ret (rendering sa) ∧
    (∀ size, 53 < size →
      format_sockaddr little_endian sa buf size = .ret (rendering sa)) ∧
    (∀ fp pfx separator suffix es, (∀ x ∈ es, x.is_ip = true) →
      fprint_addresses little_endian fp pfx separator suffix ⟨es, es.length⟩
        = ⟨expected_writes fp pfx separator suffix es, .ret ()⟩) := by
  have h1 := ip_literal_length sa
  have h2 := utoa_port_length sa
  have h3 := rendering_length_le sa
  refine ⟨h1.1, rfl, h2, h3, ?_, by decide, rfl, format_sockaddr_buf little_endian hip buf,
    ?_, ?_⟩
  · intro sin hs
    have := h1.2 sin hs
    rw [rendering_length]
    omega
  · intro size hsize
    rw [format_sockaddr_ip little_endian hip, snprintf_fits]
    omega
  · intro fp pfx separator suffix es hes
    exact fprint_addresses_writes little_endian fp pfx separator suffix es hes

theorem format_sockaddr_not_truncated_witness :
    widest6.is_ip = true ∧ (rendering widest6).length = 47 ∧
    (rendering widest6).length ≤ 53 ∧
    format_sockaddr true widest6 [] (INET6_ADDRSTRLEN + 64)
      = .ret "[ffff:ffff:ffff:ffff:ffff:ffff:ffff:ffff]:65535".toList :=
  ⟨by decide, by decide,
    (format_sockaddr_not_truncated true widest6 [] (by decide)).2.2.2.1,
    (format_sockaddr_not_truncated true widest6 [] (by decide)).2.2.2.2.2.2.2.1.trans
      (by decide)⟩

end Tcpkali
